import Mathlib

/-!
Verification of the sea-of-nodes peephole optimizer (`src/son/optimizer.rs`).

The optimizer core is shallowly embedded: the node graph (a web of
reference-counted mutable nodes in the source) becomes an association list
from node ids to node records, and the two operations `eval_type` and
`peephole` are translated as state-passing functions.  Components of the
repository that live outside the given source file (the `Node`/`NodeDef`
structure, `OpCode`, `Node::new_constant`, `NodeDef::add_def`, and
`NodeIdCounter`) are modelled from the specification, and each such
definition carries a doc comment saying so.
-/

set_option maxRecDepth 8000

namespace Son

/-- Modelled from the spec: the closed opcode enumeration of `src/son/mod.rs`
(not under `src/`): control nodes `Start`, `Ret`; value nodes `Con`, `Add`,
`Sub`, `Mul`, `Div`.  The spec says the set is extensible ("more to follow"),
and the evaluator's source has a reachable default arm, so `Other` stands for
any further opcode with no defined transfer rule. -/
inductive OpCode where
  | Start | Ret | Con | Add | Sub | Mul | Div | Other
deriving Repr, DecidableEq

/-- The type lattice of `optimizer.rs` (`enum Type`); named `Ty` because
`Type` is reserved in Lean.  `Int` carries an `i128` literal, modelled as an
unbounded integer with range checks where the source's arithmetic can fault. -/
inductive Ty where
  | Bot | Top | Simple | Int (v : ℤ)
deriving Repr, DecidableEq

/-- `i128::MIN` = -2^127. -/
def i128Min : Int := -(2 ^ 127)

/-- `i128::MAX` = 2^127 - 1. -/
def i128Max : Int := 2 ^ 127 - 1

/-- The 128-bit signed range of the source's literal integers. -/
def inRange (v : Int) : Prop := i128Min ≤ v ∧ v ≤ i128Max

instance (v : Int) : Decidable (inRange v) := by unfold inRange; infer_instance

/-- `Type::is_constant` (optimizer.rs lines 19-25).  The `Simple` arm is
`todo!()` in the source, i.e. a panic; panics are modelled as `none`. -/
def Ty.is_constant : Ty → Option Bool
  | .Bot => some false
  | .Top => some true
  | .Simple => none
  | .Int _ => some true

abbrev NodeId := Nat

/-- Modelled from the spec: a graph vertex (`Node` in `src/son/mod.rs`, not
under `src/`) with a unique id, an immutable opcode, a mutable current type,
an ordered operand list `defs` and a consumer back-reference list `users`. -/
structure Node where
  id : NodeId
  opcode : OpCode
  typ : Ty
  defs : List NodeId
  users : List NodeId
deriving Repr, DecidableEq

/-- The node graph: the web of shared mutable nodes of the source is embedded
as an association list from node ids to node records. -/
structure Graph where
  nodes : List (NodeId × Node)
deriving Repr, DecidableEq

namespace Graph

/-- Dereferencing a node id (following a `NodeDef` reference in the source). -/
def find? (g : Graph) (i : NodeId) : Option Node :=
  g.nodes.lookup i

/-- In-place mutation of the node with id `i` (the `borrow_mut` writes of the
source): every stored copy behind id `i` is updated. -/
def modify (g : Graph) (i : NodeId) (f : Node → Node) : Graph :=
  ⟨g.nodes.map fun p => if p.1 = i then (p.1, f p.2) else p⟩

/-- Overwrite the node stored at id `i`. -/
def update (g : Graph) (i : NodeId) (n : Node) : Graph :=
  g.modify i fun _ => n

end Graph

/-- Modelled from the spec: `Node::new_constant` (in `src/son/mod.rs`, not
under `src/`) allocates a new node carrying the given opcode and type, with a
fresh id minted by the monotonic `NodeIdCounter` (the counter's current value,
which is then incremented); the new node starts with no operands and no
users. -/
def Node.new_constant (cnt : Nat) (op : OpCode) (t : Ty) : Node × Nat :=
  ({ id := cnt, opcode := op, typ := t, defs := [], users := [] }, cnt + 1)

/-- Modelled from the spec: `NodeDef::add_def` (in `src/son/mod.rs`, not under
`src/`) appends node `d` to the receiver's ordered operand list `defs`, and,
keeping the spec's defs/users duality ("if A is in B.defs then B is in
A.users"), records the receiver in `d`'s `users` back-reference list. -/
def add_def (self : Node) (g : Graph) (d : NodeId) : Node × Graph :=
  ({ self with defs := self.defs ++ [d] },
   g.modify d fun m => { m with users := m.users ++ [self.id] })

/-- The source computes `x+y`, `x-y`, `x*y`, `x/y` on `i128` ("semantics are
inherited from rust", optimizer.rs line 54): a result outside the 128-bit
signed range is an arithmetic fault, which aborts (spec declares overflow and
division-by-zero fatal); aborts are modelled as `none`. -/
def checked (v : Int) : Option Ty :=
  if inRange v then some (.Int v) else none

/-- `NodeDef::eval_type` (optimizer.rs lines 46-68): the per-opcode transfer
function.  `Start`/`Ret` give `Bot`; `Con` returns its own stored type; the
four binary arithmetic opcodes read `defs[0]` and `defs[1]` and fold two
`Int` operand types with the corresponding checked `i128` operation, giving
`Bot` whenever either operand type is not an `Int` literal; every other
opcode hits the source's `unimplemented` arm, an abort (`none`). -/
def eval_type (g : Graph) (n : Node) : Option Ty :=
  match n.opcode with
  | .Start => some .Bot
  | .Ret => some .Bot
  | .Con => some n.typ
  | .Add | .Sub | .Mul | .Div => do
    let d0 ← n.defs[0]?
    let d1 ← n.defs[1]?
    let x ← g.find? d0
    let y ← g.find? d1
    match x.typ, y.typ with
    | .Int a, .Int b =>
      match n.opcode with
      | .Add => checked (a + b)
      | .Sub => checked (a - b)
      | .Mul => checked (a * b)
      | .Div => if b = 0 then none else checked (a.tdiv b)
      | _ => none
    | _, _ => some .Bot
  | .Other => none

/-- `NodeDef::peephole` (optimizer.rs lines 29-43).  It stores the evaluated
type into the node, then either returns the node unchanged (when the node is
already a `Con`, or its type is not constant) or folds: it allocates a fresh
`Con` node carrying the evaluated type, attaches the start anchor to it via
`add_def`, and returns the new constant.  The source's final `mem::drop` of
the consumed reference deallocates nothing while other references remain, so
the superseded node stays in the graph; the `println` diagnostic has no
graph effect.  Panics anywhere (evaluation faults, the `todo` in
`is_constant`) abort the call: `none`. -/
def peephole (g : Graph) (cnt : Nat) (selfId startId : NodeId) :
    Option (Graph × Nat × NodeId) := do
  let n ← g.find? selfId
  let t ← eval_type g n
  let n1 := { n with typ := t }
  let g1 := g.update selfId n1
  let c ← t.is_constant
  match n1.opcode, c with
  | .Con, true => some (g1, cnt, selfId)
  | _, false => some (g1, cnt, selfId)
  | _, true =>
    let (con, cnt1) := Node.new_constant cnt .Con t
    let (con1, g2) := add_def con g1 startId
    let g3 : Graph := ⟨(con1.id, con1) :: g2.nodes⟩
    some (g3, cnt1, con1.id)

/-! ### Concrete example graphs (the spec's `a = Con(3)`, `b = Con(4)`
scenarios) -/

/-- The start anchor node. -/
def nStart : Node := { id := 0, opcode := .Start, typ := .Bot, defs := [], users := [] }

/-- `a = Con(3)`. -/
def nCon3 : Node := { id := 1, opcode := .Con, typ := .Int 3, defs := [0], users := [3] }

/-- `b = Con(4)`. -/
def nCon4 : Node := { id := 2, opcode := .Con, typ := .Int 4, defs := [0], users := [3] }

/-- `Add(a, b)`. -/
def nAdd34 : Node := { id := 3, opcode := .Add, typ := .Bot, defs := [1, 2], users := [] }

/-- A small graph: start, `Con(3)`, `Con(4)` and `Add(Con(3), Con(4))`. -/
def gEx : Graph := ⟨[(0, nStart), (1, nCon3), (2, nCon4), (3, nAdd34)]⟩

/-- `Add(Con(3), Start)`: the right operand is not a literal constant. -/
def nAddStart : Node := { id := 4, opcode := .Add, typ := .Bot, defs := [1, 0], users := [] }

/-- Graph for the `Add(Con(3), Start)` scenario. -/
def gExStart : Graph := ⟨[(0, nStart), (1, nCon3), (4, nAddStart)]⟩

/-- A `Con` node whose stored type is the unresolved `Simple` case. -/
def nConSimple : Node := { id := 5, opcode := .Con, typ := .Simple, defs := [], users := [] }

/-- Graph holding a `Con` node of type `Simple`. -/
def gExSimple : Graph := ⟨[(0, nStart), (5, nConSimple)]⟩

/-- A node with an opcode outside the handled set. -/
def nOther : Node := { id := 6, opcode := .Other, typ := .Bot, defs := [], users := [] }

/-- Graph holding a node with an unhandled opcode. -/
def gExOther : Graph := ⟨[(0, nStart), (6, nOther)]⟩

/-- `Con(0)`. -/
def nCon0 : Node := { id := 7, opcode := .Con, typ := .Int 0, defs := [0], users := [8] }

/-- `Div(Con(3), Con(0))`: a division by zero. -/
def nDiv0 : Node := { id := 8, opcode := .Div, typ := .Bot, defs := [1, 7], users := [] }

/-- Graph for the division-by-zero scenario. -/
def gExDiv0 : Graph := ⟨[(0, nStart), (1, nCon3), (7, nCon0), (8, nDiv0)]⟩

/-- The observable state of an operand reference: the type currently stored
at a node id, if the id dereferences.  Used to state determinism ("fixed
operand types") and to read a `peephole` result back. -/
def typAt (g : Graph) (d : NodeId) : Option Ty := (g.find? d).map Node.typ

/-- The graph `gEx` after folding `Add(Con(3), Con(4))` into a fresh
`Con(7)` (counter at 10). -/
def gExFolded : Graph :=
  ⟨[(10, { id := 10, opcode := .Con, typ := .Int 7, defs := [0], users := [] }),
    (0, { id := 0, opcode := .Start, typ := .Bot, defs := [], users := [10] }),
    (1, nCon3), (2, nCon4),
    (3, { id := 3, opcode := .Add, typ := .Int 7, defs := [1, 2], users := [] })]⟩

/-- A start anchor under different ids, for the determinism scenario. -/
def nStartB : Node := { id := 100, opcode := .Start, typ := .Bot, defs := [], users := [] }

/-- `Con(3)` again, under different ids. -/
def nCon3B : Node := { id := 101, opcode := .Con, typ := .Int 3, defs := [100], users := [103] }

/-- `Con(4)` again, under different ids. -/
def nCon4B : Node := { id := 102, opcode := .Con, typ := .Int 4, defs := [100], users := [103] }

/-- `Add(Con(3), Con(4))` again, under different ids. -/
def nAdd34B : Node := { id := 103, opcode := .Add, typ := .Bot, defs := [101, 102], users := [] }

/-- A relabelled copy of `gEx`: same opcodes and operand types, different
ids — the "identical state" side of the determinism scenario. -/
def gExB : Graph := ⟨[(100, nStartB), (101, nCon3B), (102, nCon4B), (103, nAdd34B)]⟩

/-! ### Basic graph lemmas -/

theorem lookup_map_keep (l : List (NodeId × Node)) (i : NodeId)
    (f : Node → Node) :
    (l.map fun p => if p.1 = i then (p.1, f p.2) else p).lookup i =
      (l.lookup i).map f := by
  induction l with
  | nil => rfl
  | cons p t ih =>
    obtain ⟨k, v⟩ := p
    by_cases h : k = i
    · subst h
      simp [List.lookup_cons]
    · have hbeq : (i == k) = false := beq_eq_false_iff_ne.mpr fun hh => h hh.symm
      simp only [List.map_cons, if_neg h, List.lookup_cons, hbeq]
      exact ih

theorem Graph.find?_modify_self (g : Graph) (i : NodeId) (f : Node → Node) :
    (g.modify i f).find? i = (g.find? i).map f := by
  simpa [Graph.find?, Graph.modify] using lookup_map_keep g.nodes i f

theorem lookup_map_other (l : List (NodeId × Node)) (i j : NodeId)
    (f : Node → Node) (hne : j ≠ i) :
    (l.map fun p => if p.1 = i then (p.1, f p.2) else p).lookup j =
      l.lookup j := by
  induction l with
  | nil => rfl
  | cons p t ih =>
    obtain ⟨k, v⟩ := p
    by_cases h : k = i
    · subst h
      have hbeq : (j == k) = false := beq_eq_false_iff_ne.mpr hne
      simp [List.lookup_cons, hbeq, ih]
    · simp only [List.map_cons, if_neg h, List.lookup_cons]
      cases hjk : (j == k) with
      | true => rfl
      | false => exact ih

theorem Graph.find?_modify_other (g : Graph) (i j : NodeId) (f : Node → Node)
    (hne : j ≠ i) :
    (g.modify i f).find? j = g.find? j := by
  simpa [Graph.find?, Graph.modify] using lookup_map_other g.nodes i j f hne

theorem Graph.update_update (g : Graph) (i : NodeId) (n : Node) :
    (g.update i n).update i n = g.update i n := by
  simp only [Graph.update, Graph.modify, List.map_map]
  congr 1
  apply List.map_congr_left
  intro p _
  by_cases h : p.1 = i <;> simp [h]

/-! ### Evaluator and rewriter branch lemmas -/

theorem eval_type_arith (g : Graph) (n : Node) (a b : NodeId) (na nb : Node)
    (x y : ℤ)
    (h0 : n.defs[0]? = some a) (h1 : n.defs[1]? = some b)
    (ha : g.find? a = some na) (hb : g.find? b = some nb)
    (hx : na.typ = .Int x) (hy : nb.typ = .Int y) :
    (n.opcode = .Add → eval_type g n = checked (x + y)) ∧
    (n.opcode = .Sub → eval_type g n = checked (x - y)) ∧
    (n.opcode = .Mul → eval_type g n = checked (x * y)) ∧
    (n.opcode = .Div → eval_type g n =
      if y = 0 then none else checked (Int.tdiv x y)) := by
  refine ⟨?_, ?_, ?_, ?_⟩ <;> intro hop <;>
    simp [eval_type, hop, h0, h1, ha, hb, hx, hy]

theorem eval_type_arith_as_match (g : Graph) (n : Node) (a b : NodeId)
    (na nb : Node)
    (harith : n.opcode = .Add ∨ n.opcode = .Sub ∨ n.opcode = .Mul ∨
      n.opcode = .Div)
    (h0 : n.defs[0]? = some a) (h1 : n.defs[1]? = some b)
    (ha : g.find? a = some na) (hb : g.find? b = some nb) :
    eval_type g n =
      match na.typ, nb.typ with
      | .Int x, .Int y =>
        (match n.opcode with
         | .Add => checked (x + y)
         | .Sub => checked (x - y)
         | .Mul => checked (x * y)
         | .Div => if y = 0 then none else checked (Int.tdiv x y)
         | _ => none)
      | _, _ => some .Bot := by
  rcases harith with hop | hop | hop | hop <;>
    simp [eval_type, hop, h0, h1, ha, hb]

theorem eval_type_arith_bot (g : Graph) (n : Node) (a b : NodeId) (na nb : Node)
    (harith : n.opcode = .Add ∨ n.opcode = .Sub ∨ n.opcode = .Mul ∨
      n.opcode = .Div)
    (h0 : n.defs[0]? = some a) (h1 : n.defs[1]? = some b)
    (ha : g.find? a = some na) (hb : g.find? b = some nb)
    (hnot : (∀ v, na.typ ≠ .Int v) ∨ (∀ v, nb.typ ≠ .Int v)) :
    eval_type g n = some .Bot := by
  have hII : ∀ v w, na.typ = .Int v → nb.typ = .Int w → False := by
    intro v w hv hw
    rcases hnot with hno | hno
    · exact hno v hv
    · exact hno w hw
  rw [eval_type_arith_as_match g n a b na nb harith h0 h1 ha hb]
  cases hta : na.typ <;> cases htb : nb.typ <;>
    first
    | exact (hII _ _ hta htb).elim
    | rfl

theorem peephole_nofold (g : Graph) (cnt : Nat) (i s : NodeId) (n : Node)
    (t : Ty)
    (hfind : g.find? i = some n) (heval : eval_type g n = some t)
    (hc : t.is_constant = some false) :
    peephole g cnt i s = some (g.update i { n with typ := t }, cnt, i) := by
  cases hop : n.opcode <;> simp [peephole, hfind, heval, hc, hop]

theorem peephole_con_branch (g : Graph) (cnt : Nat) (i s : NodeId) (n : Node)
    (c : Bool)
    (hfind : g.find? i = some n) (hop : n.opcode = .Con)
    (hc : n.typ.is_constant = some c) :
    peephole g cnt i s = some (g.update i n, cnt, i) := by
  cases c <;>
    (simp [peephole, hfind, eval_type, hop, hc]; rw [← hop])

theorem peephole_fold (g : Graph) (cnt : Nat) (i s : NodeId) (n : Node) (t : Ty)
    (hfind : g.find? i = some n) (hncon : n.opcode ≠ .Con)
    (heval : eval_type g n = some t) (hc : t.is_constant = some true) :
    peephole g cnt i s =
      some (⟨(cnt,
        { id := cnt, opcode := .Con, typ := t, defs := [s], users := [] }) ::
          ((g.update i { n with typ := t }).modify s
            (fun m => { m with users := m.users ++ [cnt] })).nodes⟩,
        cnt + 1, cnt) := by
  cases hop : n.opcode <;> simp_all [peephole, Node.new_constant, add_def]

theorem checked_shape (v : ℤ) : checked v = none ∨ checked v = some (.Int v) := by
  unfold checked
  split
  · exact Or.inr rfl
  · exact Or.inl rfl

theorem eval_type_arith_obs (g : Graph) (n : Node)
    (harith : n.opcode = .Add ∨ n.opcode = .Sub ∨ n.opcode = .Mul ∨
      n.opcode = .Div) :
    eval_type g n =
      match (n.defs.map (typAt g))[0]?, (n.defs.map (typAt g))[1]? with
      | some (some t0), some (some t1) =>
        (match t0, t1 with
         | .Int x, .Int y =>
           (match n.opcode with
            | .Add => checked (x + y)
            | .Sub => checked (x - y)
            | .Mul => checked (x * y)
            | .Div => if y = 0 then none else checked (Int.tdiv x y)
            | _ => none)
         | _, _ => some .Bot)
      | _, _ => none := by
  rw [List.getElem?_map, List.getElem?_map]
  cases h0 : n.defs[0]? with
  | none =>
    rcases harith with hop | hop | hop | hop <;>
      simp [eval_type, hop, h0, typAt]
  | some a =>
    cases h1 : n.defs[1]? with
    | none =>
      rcases harith with hop | hop | hop | hop <;>
        simp [eval_type, hop, h0, h1, typAt]
    | some b =>
      cases ha : g.find? a with
      | none =>
        rcases harith with hop | hop | hop | hop <;>
          simp [eval_type, hop, h0, h1, ha, typAt]
      | some na =>
        cases hb : g.find? b with
        | none =>
          rcases harith with hop | hop | hop | hop <;>
            simp [eval_type, hop, h0, h1, ha, hb, typAt]
        | some nb =>
          rw [eval_type_arith_as_match g n a b na nb harith h0 h1 ha hb]
          simp [typAt, ha, hb]

theorem eval_type_arith_shape (g : Graph) (n : Node)
    (harith : n.opcode = .Add ∨ n.opcode = .Sub ∨ n.opcode = .Mul ∨
      n.opcode = .Div) :
    eval_type g n = none ∨ eval_type g n = some .Bot ∨
      ∃ v, eval_type g n = some (.Int v) := by
  rw [eval_type_arith_obs g n harith]
  cases (n.defs.map (typAt g))[0]? with
  | none => exact Or.inl rfl
  | some o0 =>
    cases (n.defs.map (typAt g))[1]? with
    | none =>
      cases o0 <;> exact Or.inl rfl
    | some o1 =>
      cases o0 with
      | none => exact Or.inl rfl
      | some t0 =>
        cases o1 with
        | none => exact Or.inl rfl
        | some t1 =>
          cases t0 <;> cases t1 <;>
            try exact Or.inr (Or.inl rfl)
          rcases harith with hop | hop | hop | hop <;> rw [hop]
          · exact (checked_shape _).elim Or.inl fun h => Or.inr (Or.inr ⟨_, h⟩)
          · exact (checked_shape _).elim Or.inl fun h => Or.inr (Or.inr ⟨_, h⟩)
          · exact (checked_shape _).elim Or.inl fun h => Or.inr (Or.inr ⟨_, h⟩)
          · rename_i x y
            show (if y = 0 then (none : Option Ty) else checked (Int.tdiv x y))
                = none ∨
              (if y = 0 then (none : Option Ty) else checked (Int.tdiv x y))
                = some .Bot ∨
              ∃ v, (if y = 0 then (none : Option Ty)
                else checked (Int.tdiv x y)) = some (.Int v)
            by_cases hy0 : y = 0
            · rw [if_pos hy0]
              exact Or.inl rfl
            · rw [if_neg hy0]
              exact (checked_shape _).elim Or.inl fun h => Or.inr (Or.inr ⟨_, h⟩)

theorem eval_type_congr (g1 g2 : Graph) (n1 n2 : Node)
    (hop : n1.opcode = n2.opcode) (hty : n1.typ = n2.typ)
    (hdefs : n1.defs.map (typAt g1) = n2.defs.map (typAt g2)) :
    eval_type g1 n1 = eval_type g2 n2 := by
  have key : (n1.opcode = .Add ∨ n1.opcode = .Sub ∨ n1.opcode = .Mul ∨
      n1.opcode = .Div) → eval_type g1 n1 = eval_type g2 n2 := by
    intro h1
    have h2 : n2.opcode = .Add ∨ n2.opcode = .Sub ∨ n2.opcode = .Mul ∨
        n2.opcode = .Div := by
      rw [← hop]
      exact h1
    rw [eval_type_arith_obs g1 n1 h1, eval_type_arith_obs g2 n2 h2, hdefs, hop]
  cases hopc : n1.opcode with
  | Start =>
    have h2 := hop.symm.trans hopc
    simp [eval_type, hopc, h2]
  | Ret =>
    have h2 := hop.symm.trans hopc
    simp [eval_type, hopc, h2]
  | Con =>
    have h2 := hop.symm.trans hopc
    simp [eval_type, hopc, h2, hty]
  | Other =>
    have h2 := hop.symm.trans hopc
    simp [eval_type, hopc, h2]
  | Add => exact key (Or.inl hopc)
  | Sub => exact key (Or.inr (Or.inl hopc))
  | Mul => exact key (Or.inr (Or.inr (Or.inl hopc)))
  | Div => exact key (Or.inr (Or.inr (Or.inr hopc)))

theorem peephole_result_typ (g : Graph) (cnt : Nat) (i s : NodeId) (n : Node)
    (hfind : g.find? i = some n) :
    (peephole g cnt i s).map (fun r => typAt r.1 r.2.2) =
      (eval_type g n).bind (fun t => t.is_constant.map (fun _ => some t)) := by
  cases heval : eval_type g n with
  | none => simp [peephole, hfind, heval]
  | some t =>
    cases hc : t.is_constant with
    | none => simp [peephole, hfind, heval, hc]
    | some c =>
      cases c with
      | false =>
        rw [peephole_nofold g cnt i s n t hfind heval hc]
        simp [typAt, Graph.update, Graph.find?_modify_self, hfind, hc]
      | true =>
        by_cases hcon : n.opcode = .Con
        · have ht : t = n.typ := by
            have : eval_type g n = some n.typ := by simp [eval_type, hcon]
            rw [heval] at this
            exact (Option.some.injEq .. ▸ this)
          subst ht
          rw [peephole_con_branch g cnt i s n true hfind hcon hc]
          simp [typAt, Graph.update, Graph.find?_modify_self, hfind, hc]
        · rw [peephole_fold g cnt i s n t hfind hcon heval hc]
          simp [typAt, Graph.find?, List.lookup_cons, hc]

/-! ### The claims -/

/-- C7: `is_constant` returns true for `Top` and for every `Int(_)`, false
for `Bot`, and for `Simple` it does not silently return either polarity:
the call is the source's unfinished `todo!()`, an abort (`none`). -/
theorem is_constant_spec :
    Ty.is_constant .Top = some true ∧
    (∀ v, Ty.is_constant (.Int v) = some true) ∧
    Ty.is_constant .Bot = some false ∧
    Ty.is_constant .Simple = none :=
  ⟨rfl, fun _ => rfl, rfl, rfl⟩

/-- C6: the transfer function maps every `Start` node and every `Ret` node to
`Bot`, and maps every `Con` node to its own already-assigned type unchanged,
whatever its operands are. -/
theorem eval_type_control_con (g : Graph) (k : NodeId) (t : Ty)
    (ds us : List NodeId) :
    eval_type g { id := k, opcode := .Start, typ := t, defs := ds, users := us }
      = some .Bot ∧
    eval_type g { id := k, opcode := .Ret, typ := t, defs := ds, users := us }
      = some .Bot ∧
    eval_type g { id := k, opcode := .Con, typ := t, defs := ds, users := us }
      = some t :=
  ⟨rfl, rfl, rfl⟩

/-- C8: a node whose opcode is outside `{Start, Ret, Con, Add, Sub, Mul, Div}`
is a hard failure: the evaluator aborts (`none`), and so does `peephole`,
which invokes the evaluator before its rewrite decision. -/
theorem eval_type_unhandled_aborts (g : Graph) (cnt : Nat) (i s : NodeId)
    (n : Node) (hfind : g.find? i = some n) (hop : n.opcode = .Other) :
    eval_type g n = none ∧ peephole g cnt i s = none := by
  have he : eval_type g n = none := by simp [eval_type, hop]
  exact ⟨he, by simp [peephole, hfind, he]⟩

/-- Witness for C8 at a concrete unhandled node. -/
theorem eval_type_unhandled_aborts_witness :
    eval_type gExOther nOther = none ∧ peephole gExOther 7 6 0 = none :=
  eval_type_unhandled_aborts gExOther 7 6 0 nOther rfl rfl

/-- C1: on a binary arithmetic node whose two operand types are `Int(x)` and
`Int(y)`, with `x`, `y` and the exact result in the 128-bit signed range
(and `y ≠ 0` for `Div`), `peephole` returns a brand-new `Con` node (fresh id
from the counter) whose type is the `Int` of the arithmetic result: `x+y` for
`Add`, `x-y` for `Sub`, `x*y` for `Mul`, truncating `x/y` for `Div`. -/
theorem peephole_folds_arith (g : Graph) (cnt : Nat) (i s a b : NodeId)
    (n na nb : Node) (op : OpCode) (x y r : ℤ)
    (hfind : g.find? i = some n) (hop : n.opcode = op)
    (h0 : n.defs[0]? = some a) (h1 : n.defs[1]? = some b)
    (ha : g.find? a = some na) (hb : g.find? b = some nb)
    (hx : na.typ = .Int x) (hy : nb.typ = .Int y)
    (hxr : inRange x) (hyr : inRange y) (hr : inRange r)
    (hcase : (op = .Add ∧ r = x + y) ∨ (op = .Sub ∧ r = x - y) ∨
      (op = .Mul ∧ r = x * y) ∨ (op = .Div ∧ y ≠ 0 ∧ r = Int.tdiv x y)) :
    ∃ g' con, peephole g cnt i s = some (g', cnt + 1, con.id) ∧
      con.id = cnt ∧ g'.find? con.id = some con ∧
      con.opcode = .Con ∧ con.typ = .Int r := by
  have harr := eval_type_arith g n a b na nb x y h0 h1 ha hb hx hy
  have heval : eval_type g n = some (.Int r) := by
    rcases hcase with ⟨ho, hrv⟩ | ⟨ho, hrv⟩ | ⟨ho, hrv⟩ | ⟨ho, hy0, hrv⟩
    · rw [harr.1 (hop.trans ho), ← hrv, checked, if_pos hr]
    · rw [harr.2.1 (hop.trans ho), ← hrv, checked, if_pos hr]
    · rw [harr.2.2.1 (hop.trans ho), ← hrv, checked, if_pos hr]
    · rw [harr.2.2.2 (hop.trans ho), if_neg hy0, ← hrv, checked, if_pos hr]
  have hncon : n.opcode ≠ .Con := by
    rw [hop]
    rcases hcase with ⟨ho, _⟩ | ⟨ho, _⟩ | ⟨ho, _⟩ | ⟨ho, _, _⟩ <;> subst ho <;>
      intro hk <;> cases hk
  have hfold := peephole_fold g cnt i s n (.Int r) hfind hncon heval rfl
  refine ⟨_, { id := cnt, opcode := .Con, typ := .Int r, defs := [s], users := [] }, hfold, rfl, ?_, rfl, rfl⟩
  simp [Graph.find?, List.lookup_cons]

/-- Witness for C1: folding `Add(Con(3), Con(4))` yields a new `Con(7)`. -/
theorem peephole_folds_arith_witness :
    ∃ g' con, peephole gEx 10 3 0 = some (g', 10 + 1, con.id) ∧
      con.id = 10 ∧ g'.find? con.id = some con ∧
      con.opcode = .Con ∧ con.typ = .Int 7 :=
  peephole_folds_arith gEx 10 3 0 1 2 nAdd34 nCon3 nCon4 .Add 3 4 7
    rfl rfl rfl rfl rfl rfl rfl rfl (by decide) (by decide) (by decide)
    (Or.inl ⟨rfl, rfl⟩)

/-- C4: if at least one operand of a binary arithmetic node has a type that
is not a literal `Int`, the evaluated type is `Bot` and `peephole` performs
no fold: it returns the same node (same id), only rewriting its stored type
to `Bot`. -/
theorem peephole_arith_nonconst_unchanged (g : Graph) (cnt : Nat)
    (i s a b : NodeId) (n na nb : Node)
    (hfind : g.find? i = some n)
    (harith : n.opcode = .Add ∨ n.opcode = .Sub ∨ n.opcode = .Mul ∨
      n.opcode = .Div)
    (h0 : n.defs[0]? = some a) (h1 : n.defs[1]? = some b)
    (ha : g.find? a = some na) (hb : g.find? b = some nb)
    (hnot : (∀ v, na.typ ≠ .Int v) ∨ (∀ v, nb.typ ≠ .Int v)) :
    eval_type g n = some .Bot ∧
    peephole g cnt i s = some (g.update i { n with typ := .Bot }, cnt, i) := by
  have he := eval_type_arith_bot g n a b na nb harith h0 h1 ha hb hnot
  exact ⟨he, peephole_nofold g cnt i s n .Bot hfind he rfl⟩

/-- Witness for C4: `peephole(Add(Con(3), Start))` leaves the `Add` node in
place with type `Bot` (`Start` is never a constant). -/
theorem peephole_arith_nonconst_unchanged_witness :
    eval_type gExStart nAddStart = some .Bot ∧
    peephole gExStart 7 4 0 =
      some (gExStart.update 4 { nAddStart with typ := .Bot }, 7, 4) :=
  peephole_arith_nonconst_unchanged gExStart 7 4 0 1 0 nAddStart nCon3 nStart
    rfl (Or.inl rfl) rfl rfl rfl rfl
    (Or.inr fun v h => by simp [nStart] at h)

/-- C5: when a binary arithmetic node has operand types `Int(x)` and
`Int(y)`, overflow of the exact 128-bit signed result and division by zero
are fatal: the evaluation aborts (`none`), and so does the `peephole` call,
rather than returning any type. -/
theorem eval_type_fault_aborts (g : Graph) (cnt : Nat) (i s a b : NodeId)
    (n na nb : Node) (op : OpCode) (x y : ℤ)
    (hfind : g.find? i = some n) (hop : n.opcode = op)
    (h0 : n.defs[0]? = some a) (h1 : n.defs[1]? = some b)
    (ha : g.find? a = some na) (hb : g.find? b = some nb)
    (hx : na.typ = .Int x) (hy : nb.typ = .Int y)
    (hfault : (op = .Add ∧ ¬ inRange (x + y)) ∨
      (op = .Sub ∧ ¬ inRange (x - y)) ∨
      (op = .Mul ∧ ¬ inRange (x * y)) ∨
      (op = .Div ∧ (y = 0 ∨ ¬ inRange (Int.tdiv x y)))) :
    eval_type g n = none ∧ peephole g cnt i s = none := by
  have harr := eval_type_arith g n a b na nb x y h0 h1 ha hb hx hy
  have he : eval_type g n = none := by
    rcases hfault with ⟨ho, hnr⟩ | ⟨ho, hnr⟩ | ⟨ho, hnr⟩ | ⟨ho, hdz⟩
    · rw [harr.1 (hop.trans ho), checked, if_neg hnr]
    · rw [harr.2.1 (hop.trans ho), checked, if_neg hnr]
    · rw [harr.2.2.1 (hop.trans ho), checked, if_neg hnr]
    · rw [harr.2.2.2 (hop.trans ho)]
      rcases hdz with hz | hnr
      · rw [if_pos hz]
      · have hy0 : y ≠ 0 := by
          intro hz
          subst hz
          rw [Int.tdiv_zero] at hnr
          exact hnr (by decide)
        rw [if_neg hy0, checked, if_neg hnr]
  exact ⟨he, by simp [peephole, hfind, he]⟩

/-- Witness for C5: division by zero, `Div(Con(3), Con(0))`, aborts. -/
theorem eval_type_fault_aborts_witness :
    eval_type gExDiv0 nDiv0 = none ∧ peephole gExDiv0 9 8 0 = none :=
  eval_type_fault_aborts gExDiv0 9 8 0 1 7 nDiv0 nCon3 nCon0 .Div 3 0
    rfl rfl rfl rfl rfl rfl rfl rfl
    (Or.inr (Or.inr (Or.inr ⟨rfl, Or.inl rfl⟩)))

/-- C2 is false as stated: folding `Add(Con(3), Con(4))` in `gEx` produces
the new constant with id 10, yet the start anchor's operand list stays `[]`
— the constant does not appear among start's defs (it is attached the other
way around, see the amended theorem). -/
theorem fold_not_among_start_defs_cex :
    (peephole gEx 10 3 0).map (fun r => r.2.2) = some 10 ∧
    (peephole gEx 10 3 0).map (fun r => (r.1.find? 0).map Node.defs) =
      some (some []) := by
  constructor <;> decide

/-- C2 (amended): for every fold performed by `peephole`, the produced
constant node carries the start anchor among its own operands (defs), and is
correspondingly recorded among the start node's users — reachability from
start is through the user back-edge, not through start's operand list. -/
theorem fold_attached_under_start (g : Graph) (cnt : Nat) (i s : NodeId)
    (n st : Node) (t : Ty)
    (hfind : g.find? i = some n) (hncon : n.opcode ≠ .Con)
    (heval : eval_type g n = some t) (hc : t.is_constant = some true)
    (hst : g.find? s = some st) (hsi : s ≠ i) (hscnt : s ≠ cnt) :
    ∃ g' con, peephole g cnt i s = some (g', cnt + 1, con.id) ∧
      con.id = cnt ∧ s ∈ con.defs ∧ g'.find? con.id = some con ∧
      ∃ st', g'.find? s = some st' ∧ con.id ∈ st'.users := by
  have hfold := peephole_fold g cnt i s n t hfind hncon heval hc
  refine ⟨_, { id := cnt, opcode := .Con, typ := t, defs := [s], users := [] }, hfold, rfl, by simp, ?_, ?_⟩
  · simp [Graph.find?, List.lookup_cons]
  · refine ⟨{ st with users := st.users ++ [cnt] }, ?_, by simp⟩
    have hbeq : (s == cnt) = false := beq_eq_false_iff_ne.mpr hscnt
    have h2 : ((g.update i { n with typ := t }).modify s
        (fun m => { m with users := m.users ++ [cnt] })).find? s =
        some { st with users := st.users ++ [cnt] } := by
      rw [Graph.find?_modify_self, Graph.update,
        Graph.find?_modify_other g i s _ hsi, hst]
      rfl
    simpa [Graph.find?, List.lookup_cons, hbeq] using h2

/-- Witness for the amended C2 at the `Add(Con(3), Con(4))` fold. -/
theorem fold_attached_under_start_witness :
    ∃ g' con, peephole gEx 10 3 0 = some (g', 10 + 1, con.id) ∧
      con.id = 10 ∧ (0 : NodeId) ∈ con.defs ∧ g'.find? con.id = some con ∧
      ∃ st', g'.find? 0 = some st' ∧ con.id ∈ st'.users :=
  fold_attached_under_start gEx 10 3 0 nAdd34 nStart (.Int 7)
    rfl (by decide) (by decide) rfl rfl (by decide) (by decide)

/-- C3 is false as stated: calling `peephole` on a `Con` node whose stored
type is `Simple` does not return the node unchanged — the rewrite decision
calls `is_constant`, which reaches the source's `todo!()`, so the call
aborts. -/
theorem peephole_con_simple_cex :
    gExSimple.find? 5 = some nConSimple ∧ nConSimple.opcode = .Con ∧
    peephole gExSimple 9 5 0 = none := by
  refine ⟨rfl, rfl, ?_⟩
  decide

/-- C3 (amended): for every `Con` node whose stored type is not the
unresolved `Simple` case, `peephole` returns that same node unchanged (same
id, type-equal), and applying `peephole` a second time to the returned node
is the identity. -/
theorem peephole_con_unchanged_idem (g : Graph) (cnt : Nat) (i s : NodeId)
    (n : Node)
    (hfind : g.find? i = some n) (hop : n.opcode = .Con)
    (hty : n.typ ≠ .Simple) :
    ∃ g', peephole g cnt i s = some (g', cnt, i) ∧ g'.find? i = some n ∧
      peephole g' cnt i s = some (g', cnt, i) := by
  obtain ⟨c, hc⟩ : ∃ c, n.typ.is_constant = some c := by
    cases h : n.typ with
    | Simple => exact absurd h hty
    | Bot => exact ⟨false, rfl⟩
    | Top => exact ⟨true, rfl⟩
    | Int v => exact ⟨true, rfl⟩
  have h1 := peephole_con_branch g cnt i s n c hfind hop hc
  have hfind' : (g.update i n).find? i = some n := by
    rw [Graph.update, Graph.find?_modify_self, hfind]
    rfl
  have h2 := peephole_con_branch (g.update i n) cnt i s n c hfind' hop hc
  rw [Graph.update_update] at h2
  exact ⟨g.update i n, h1, hfind', h2⟩

/-- Witness for the amended C3 at the canonical constant `Con(3)`. -/
theorem peephole_con_unchanged_idem_witness :
    ∃ g', peephole gEx 10 1 0 = some (g', 10, 1) ∧ g'.find? 1 = some nCon3 ∧
      peephole g' 10 1 0 = some (g', 10, 1) :=
  peephole_con_unchanged_idem gEx 10 1 0 nCon3 rfl rfl (by decide)

/-- C9: `peephole` is deterministic: two invocations on nodes with identical
state (same opcode, same stored type, same operand types) evaluate to the
same type, and the nodes the two calls return carry equal types. -/
theorem peephole_deterministic (g1 g2 : Graph) (c1 c2 : Nat)
    (i1 i2 s1 s2 : NodeId) (n1 n2 : Node)
    (hf1 : g1.find? i1 = some n1) (hf2 : g2.find? i2 = some n2)
    (hop : n1.opcode = n2.opcode) (hty : n1.typ = n2.typ)
    (hdefs : n1.defs.map (typAt g1) = n2.defs.map (typAt g2)) :
    eval_type g1 n1 = eval_type g2 n2 ∧
    (peephole g1 c1 i1 s1).map (fun r => typAt r.1 r.2.2) =
      (peephole g2 c2 i2 s2).map (fun r => typAt r.1 r.2.2) := by
  have he := eval_type_congr g1 g2 n1 n2 hop hty hdefs
  refine ⟨he, ?_⟩
  rw [peephole_result_typ g1 c1 i1 s1 n1 hf1,
    peephole_result_typ g2 c2 i2 s2 n2 hf2, he]

/-- Witness for C9: `Add(Con(3), Con(4))` in `gEx` and its relabelled copy
in `gExB` fold to type-equal results. -/
theorem peephole_deterministic_witness :
    eval_type gEx nAdd34 = eval_type gExB nAdd34B ∧
    (peephole gEx 10 3 0).map (fun r => typAt r.1 r.2.2) =
      (peephole gExB 50 103 100).map (fun r => typAt r.1 r.2.2) :=
  peephole_deterministic gEx gExB 10 50 3 103 0 100 nAdd34 nAdd34B
    rfl rfl rfl rfl (by decide)

/-- C10: on the handled opcodes `Start`, `Ret`, `Add`, `Sub`, `Mul`, `Div`,
the transfer function only produces `Bot` or a literal `Int` — never `Top`
or `Simple`; consequently every fold `peephole` performs on such a (non-Con)
node creates a `Con` node whose type is a literal `Int`. -/
theorem eval_type_bot_or_int (g g' : Graph) (cnt cnt' : Nat) (i s j : NodeId)
    (n : Node) (t : Ty)
    (hops : n.opcode = .Start ∨ n.opcode = .Ret ∨ n.opcode = .Add ∨
      n.opcode = .Sub ∨ n.opcode = .Mul ∨ n.opcode = .Div)
    (hfind : g.find? i = some n) :
    (eval_type g n = some t → t = .Bot ∨ ∃ v, t = .Int v) ∧
    (peephole g cnt i s = some (g', cnt', j) → cnt' ≠ cnt →
      ∃ con, g'.find? j = some con ∧ con.opcode = .Con ∧
        ∃ v, con.typ = .Int v) := by
  have hpart1 : ∀ u, eval_type g n = some u → u = .Bot ∨ ∃ v, u = .Int v := by
    intro u hu
    rcases hops with hop | hop | hop | hop | hop | hop
    · rw [show eval_type g n = some .Bot by simp [eval_type, hop]] at hu
      exact Or.inl (Option.some.injEq .. ▸ hu).symm
    · rw [show eval_type g n = some .Bot by simp [eval_type, hop]] at hu
      exact Or.inl (Option.some.injEq .. ▸ hu).symm
    all_goals
      rcases eval_type_arith_shape g n (by simp [hop]) with h | h | ⟨v, h⟩ <;>
        rw [hu] at h
      · cases h
      · exact Or.inl (Option.some.injEq .. ▸ h)
      · exact Or.inr ⟨v, Option.some.injEq .. ▸ h⟩
  refine ⟨hpart1 t, ?_⟩
  intro hp hcnt
  cases heval : eval_type g n with
  | none =>
    rw [show peephole g cnt i s = none by simp [peephole, hfind, heval]] at hp
    cases hp
  | some t0 =>
    cases hc : t0.is_constant with
    | none =>
      rw [show peephole g cnt i s = none by
        simp [peephole, hfind, heval, hc]] at hp
      cases hp
    | some c =>
      cases c with
      | false =>
        rw [peephole_nofold g cnt i s n t0 hfind heval hc] at hp
        simp only [Option.some.injEq, Prod.mk.injEq] at hp
        exact absurd hp.2.1.symm hcnt
      | true =>
        have hncon : n.opcode ≠ .Con := by
          rcases hops with hop | hop | hop | hop | hop | hop <;>
            rw [hop] <;> intro hk <;> cases hk
        rw [peephole_fold g cnt i s n t0 hfind hncon heval hc] at hp
        simp only [Option.some.injEq, Prod.mk.injEq] at hp
        obtain ⟨hg, hcnt1, hj⟩ := hp
        refine ⟨{ id := cnt, opcode := .Con, typ := t0, defs := [s], users := [] }, ?_, rfl, ?_⟩
        · rw [← hg, ← hj]
          simp [Graph.find?, List.lookup_cons]
        · rcases hpart1 t0 heval with hbot | ⟨v, hv⟩
          · rw [hbot] at hc
            cases hc
          · exact ⟨v, hv⟩

/-- Witness for C10: the fold of `Add(Con(3), Con(4))` in `gEx` (evaluated
type `Int 7`) produces a `Con` of a literal `Int` type, found in
`gExFolded`. -/
theorem eval_type_bot_or_int_witness :
    ((.Int 7 : Ty) = .Bot ∨ ∃ v, (.Int 7 : Ty) = .Int v) ∧
    (∃ con, gExFolded.find? 10 = some con ∧ con.opcode = .Con ∧
      ∃ v, con.typ = .Int v) :=
  ⟨(eval_type_bot_or_int gEx gExFolded 10 11 3 0 10 nAdd34 (.Int 7)
      (Or.inr (Or.inr (Or.inl rfl))) rfl).1 (by decide),
   (eval_type_bot_or_int gEx gExFolded 10 11 3 0 10 nAdd34 (.Int 7)
      (Or.inr (Or.inr (Or.inl rfl))) rfl).2 (by decide) (by decide)⟩

end Son
